import Mathlib

/-
Verification of the record-matching and field-transformation engine of the
scriptotek/lokar repository (lokar.py, lokar/task.py, almar/job.py).

Shallow embedding conventions:
 - MARC fields are values: a tag, two indicators and an ordered list of
   (code, text) subfield pairs.  A record is an ordered list of fields.
 - The query matcher and the field update helper live in a marc module that
   is not under src/; those definitions are modelled from the spec and are
   marked as such in their doc comments.
 - Python dict-shaped queries are given a tagged representation: a search
   specification is a literal, the ANY_VALUE wildcard sentinel, or None
   (the subfield must be absent); a replace slot mirrors the optional
   presence of the replace key whose value itself may be None.
-/

set_option maxHeartbeats 1000000

/-- Strip leading and trailing whitespace from a character list (the
term.strip() step of lokar.py normalize_term). -/
def trimChars (s : List Char) : List Char :=
  ((s.dropWhile Char.isWhitespace).reverse.dropWhile Char.isWhitespace).reverse

/-- Split a character list on the fixed " : " separator, scanning left to
right (the term.split step of lokar.py normalize_term). -/
def splitComponents : List Char → List (List Char)
  | [] => [[]]
  | ' ' :: ':' :: ' ' :: rest => [] :: splitComponents rest
  | c :: rest =>
      match splitComponents rest with
      | [] => [[c]]
      | comp :: comps => (c :: comp) :: comps

/-- Capitalize the first character of one component (component[0].upper() +
component[1:]; ASCII uppercasing). -/
def upperFirstChars : List Char → List Char
  | [] => []
  | c :: cs => c.toUpper :: cs

/-- Join components back with the fixed " : " separator. -/
def joinComponents : List (List Char) → List Char
  | [] => []
  | [x] => x
  | x :: y :: xs => x ++ (' ' :: ':' :: ' ' :: joinComponents (y :: xs))

/-- From lokar.py normalize_term: normalize a term so it starts with a
capital letter; a subject string fused by " : " has every component
normalized. The empty string is returned unchanged. Implemented over the
character list of the string. -/
def normalizeTerm (s : String) : String :=
  if s = "" then s
  else String.mk (joinComponents
    ((splitComponents (trimChars s.toList)).map upperFirstChars))

/-- Search specification of one query entry: a literal string, the ANY_VALUE
wildcard sentinel from lokar util, or None (subfield must be absent). -/
inductive SearchVal where
  | lit (s : String)
  | anyValue
  | absent
deriving DecidableEq

/-- One value of a query dict: the search slot, and the optional replace key
whose value may itself be None (mirroring the Python dict shape). -/
structure QueryEntry where
  search : SearchVal
  replace : Option (Option String)
deriving DecidableEq

/-- A query, as built by Task.make_query: an ordered association list from
subfield code to entry. -/
abbrev Query := List (String × QueryEntry)

/-- One MARC datafield: tag, indicators, ordered repeatable subfields. -/
structure MarcField where
  tag : String
  ind1 : String
  ind2 : String
  subfields : List (String × String)
deriving DecidableEq

/-- The ordered field list of one MARC record. -/
abbrev MarcFields := List MarcField

/-- First subfield text of a given code (findtext semantics). -/
def MarcField.getSf (f : MarcField) (code : String) : Option String :=
  (f.subfields.find? (fun p => p.1 == code)).map (fun p => p.2)

/-- Modelled from the spec: the field matcher of the marc module (not under
src/). One code constraint: a literal must be equal after normalization on
both sides, ANY_VALUE requires only presence, None requires absence. The
subfield consulted is the first of the given code (findtext semantics, as in
lokar.py subject_fields). -/
def sfMatch (f : MarcField) (code : String) (sv : SearchVal) : Bool :=
  match sv with
  | .absent => (f.getSf code).isNone
  | .anyValue => (f.getSf code).isSome
  | .lit s =>
      match f.getSf code with
      | some v => normalizeTerm v == normalizeTerm s
      | none => false

/-- Modelled from the spec: a field matches a query iff every code present in
the query satisfies its search constraint; codes absent from the query are not
inspected. -/
def fieldMatch (f : MarcField) (q : List (String × SearchVal)) : Bool :=
  q.all (fun p => sfMatch f p.1 p.2)

/-- Search part of a query (the slots consulted by the matcher). -/
def querySearch (q : Query) : List (String × SearchVal) :=
  q.map (fun p => (p.1, p.2.search))

/-- Modelled from the spec: marc_record.fields(tag, query) of the marc module
(not under src/): all fields with the given tag matching the query, in record
order. -/
def recordFields (r : MarcFields) (tag : String) (q : List (String × SearchVal)) :
    List MarcField :=
  r.filter (fun f => f.tag == tag && fieldMatch f q)

/-- From lokar/task.py Task.get_simple_subject_repr: the canonical key of a
field is its tag followed by every subfield with code among a, b, x, y, z, in
the order the subfields appear on the field, with normalized values. -/
def getSimpleSubjectRepr (f : MarcField) : String :=
  " ".intercalate (f.tag :: f.subfields.filterMap (fun p =>
    if p.1 ∈ ["a", "b", "x", "y", "z"] then
      some ("$" ++ p.1 ++ " " ++ normalizeTerm p.2)
    else none))

/-- A heterogeneous query value as accepted by Task.remove_duplicates: either
a plain optional string or a full query entry dict. -/
inductive QVal where
  | plain (v : Option String)
  | entry (e : QueryEntry)

/-- From lokar/task.py Task.remove_duplicates (the query2 conversion): None
stays None, a plain string stays itself, an entry with a replace key yields
its replace value, any other entry yields its search value. -/
def query2Val : QVal → SearchVal
  | .plain none => .absent
  | .plain (some s) => .lit s
  | .entry e =>
      match e.replace with
      | some (some r) => .lit r
      | some none => .absent
      | none => e.search

def query2Of (q : List (String × QVal)) : List (String × SearchVal) :=
  q.map (fun p => (p.1, query2Val p.2))

/-- From lokar/task.py Task.remove_duplicates, main loop: walk the fields of
the record that carry the given tag and match the converted query, in record
order; a field whose canonical key was already seen is removed and counted,
otherwise its key is appended to the seen list. Keys is the accumulator of
seen keys. -/
def removeDupsGo (tag : String) (q : List (String × SearchVal)) :
    List String → MarcFields → MarcFields × Nat
  | _, [] => ([], 0)
  | keys, f :: fs =>
      if f.tag == tag && fieldMatch f q then
        if getSimpleSubjectRepr f ∈ keys then
          ((removeDupsGo tag q keys fs).1, (removeDupsGo tag q keys fs).2 + 1)
        else
          (f :: (removeDupsGo tag q (keys ++ [getSimpleSubjectRepr f]) fs).1,
           (removeDupsGo tag q (keys ++ [getSimpleSubjectRepr f]) fs).2)
      else
        (f :: (removeDupsGo tag q keys fs).1, (removeDupsGo tag q keys fs).2)

/-- From lokar/task.py Task.remove_duplicates: returns the deduplicated
record and the number of removed duplicate fields. -/
def removeDuplicates (tag : String) (q : List (String × SearchVal))
    (r : MarcFields) : MarcFields × Nat :=
  removeDupsGo tag q [] r

/-- Modelled from the spec: MarcConcept (the concept module is not under src/): a
tagged heading with a term and a subfield mapping; the components are the
term split on the fixed separator. The ambiguous a-or-x placement is marked
by the pseudo subfield code a_or_x holding the term. -/
structure MarcConcept where
  tag : String
  term : String
  sf : List (String × String)
deriving DecidableEq

def MarcConcept.components (c : MarcConcept) : List String :=
  (splitComponents c.term.toList).map String.mk

def searchValOfOpt : Option String → SearchVal
  | some s => .lit s
  | none => .absent

/-- From lokar/task.py Task.make_query: entry for code 2 with the source
vocabulary, then one entry for each of a, b, x, y, z whose search is the
source value (None when unset) and, when a target is given, whose replace
slot is the target value; finally an entry for code 0 with an ANY_VALUE
search when the target carries an authority identifier. -/
def makeQuery (source : MarcConcept) (target : Option MarcConcept) : Query :=
  (("2", ⟨searchValOfOpt (source.sf.lookup "2"), none⟩) ::
    ["a", "b", "x", "y", "z"].map (fun n =>
      (n, ⟨searchValOfOpt (source.sf.lookup n),
           target.map (fun t => t.sf.lookup n)⟩)))
  ++ (match target with
      | some t =>
          match t.sf.lookup "0" with
          | some z => [("0", ⟨SearchVal.anyValue, some (some z)⟩)]
          | none => []
      | none => [])

/-- From lokar/task.py ReplaceTask.make_component_query: entry for code 2,
then entries only for the codes among a, b, x, y, z that the source concept
populates; extra subfields of a candidate field are thereby ignored. -/
def makeComponentQuery (source : MarcConcept) (target : Option MarcConcept) : Query :=
  ("2", ⟨searchValOfOpt (source.sf.lookup "2"), none⟩) ::
    ["a", "b", "x", "y", "z"].foldr (fun n acc =>
      match source.sf.lookup n with
      | some v =>
          (n, ⟨SearchVal.lit v, target.map (fun t => t.sf.lookup n)⟩) :: acc
      | none => acc) []

/-- Replace the first subfield of the given code, appending when missing. -/
def setSubfield (code val : String) : List (String × String) → List (String × String)
  | [] => [(code, val)]
  | p :: ps => if p.1 == code then (code, val) :: ps else p :: setSubfield code val ps

/-- Remove the first subfield of the given code. -/
def eraseSubfield (code : String) : List (String × String) → List (String × String)
  | [] => []
  | p :: ps => if p.1 == code then ps else p :: eraseSubfield code ps

/-- Modelled from the spec: field.update(query) of the marc module (not under
src/): set the target subfield values; a replace slot holding a string sets
the subfield, a replace slot holding None removes it, an entry without a
replace key leaves the field alone. -/
def fieldUpdate (q : Query) (f : MarcField) : MarcField :=
  ⟨f.tag, f.ind1, f.ind2,
    q.foldl (fun sfs p =>
      match p.2.replace with
      | none => sfs
      | some (some r) => setSubfield p.1 r sfs
      | some none => eraseSubfield p.1 sfs) f.subfields⟩

/-- Modelled from the spec: the count contributed by one field.update call;
run returns the count of fields changed, so one update contributes 1 exactly
when the field changed. -/
def fieldUpdateCount (q : Query) (f : MarcField) : Nat :=
  if fieldUpdate q f = f then 0 else 1

/-- One pass of ReplaceTask.run over the record for one query: every field of
the task tag matching the query search part is updated in place, and the
counts of the update calls are summed. -/
def runQueryPass (tag : String) (q : Query) : MarcFields → MarcFields × Nat
  | [] => ([], 0)
  | f :: fs =>
      let r := runQueryPass tag q fs
      if f.tag == tag && fieldMatch f (querySearch q) then
        (fieldUpdate q f :: r.1, fieldUpdateCount q f + r.2)
      else
        (f :: r.1, r.2)

/-- From lokar/task.py ReplaceTask: source, one target, and the
ignore_extra_components flag. -/
structure ReplaceTask where
  source : MarcConcept
  target : MarcConcept
  ignore_extra_components : Bool
deriving DecidableEq

/-- From lokar/task.py ReplaceTask.run: update the fields matching the exact
query, then (when ignore_extra_components is set) also those matching the
component query; afterwards run remove_duplicates with the exact query and
return the summed update count (duplicate removals are not counted). -/
def ReplaceTask.run (t : ReplaceTask) (r : MarcFields) : MarcFields × Nat :=
  let q1 := makeQuery t.source (some t.target)
  let p1 := runQueryPass t.source.tag q1 r
  let p2 :=
    if t.ignore_extra_components then
      runQueryPass t.source.tag (makeComponentQuery t.source (some t.target)) p1.1
    else (p1.1, 0)
  let d := removeDuplicates t.source.tag
      (query2Of (q1.map (fun p => (p.1, QVal.entry p.2)))) p2.1
  (d.1, p1.2 + p2.2)

/-- From lokar/task.py ReplaceTask.match: the inexact query is used when
ignore_extra_components is set, the exact one otherwise. -/
def ReplaceTask.matches (t : ReplaceTask) (r : MarcFields) : Bool :=
  let q := if t.ignore_extra_components then makeComponentQuery t.source none
           else makeQuery t.source none
  !(recordFields r t.source.tag (querySearch q)).isEmpty

/-- From lokar/task.py DeleteTask.run: remove every field of the source tag
matching the query and return the removed count. -/
def deleteRun (source : MarcConcept) (r : MarcFields) : MarcFields × Nat :=
  let q := querySearch (makeQuery source none)
  (r.filter (fun f => !(f.tag == source.tag && fieldMatch f q)),
   (r.filter (fun f => f.tag == source.tag && fieldMatch f q)).length)

/-- From lokar/task.py AddTask.run: the new datafield, with indicators blank
and 7, subfields a and 2 from the source, then 0 and x when the source
carries them. -/
def mkAddField (c : MarcConcept) : MarcField :=
  ⟨c.tag, " ", "7",
    [("a", (c.sf.lookup "a").getD ""), ("2", (c.sf.lookup "2").getD "")]
    ++ (match c.sf.lookup "0" with | some v => [("0", v)] | none => [])
    ++ (match c.sf.lookup "x" with | some v => [("x", v)] | none => [])⟩

/-- The vocabulary query used by AddTask.run to locate existing subjects. -/
def vocabQuery (c : MarcConcept) : List (String × SearchVal) :=
  [("2", searchValOfOpt (c.sf.lookup "2"))]

/-- Insert the new field immediately after the last field satisfying vm;
returns none when no field satisfies vm. Mirrors the index arithmetic of
AddTask.run (index of the last existing subject, insertion at index + 1). -/
def insertAfterLastMatch (vm : MarcField → Bool) (nf : MarcField) :
    MarcFields → Option MarcFields
  | [] => none
  | f :: fs =>
      match insertAfterLastMatch vm nf fs with
      | some fs2 => some (f :: fs2)
      | none => if vm f then some (f :: nf :: fs) else none

/-- The plain-valued dedup query passed by AddTask.run to remove_duplicates. -/
def addDedupQuery (c : MarcConcept) : List (String × SearchVal) :=
  query2Of [("2", QVal.plain (c.sf.lookup "2")),
            ("a", QVal.plain (c.sf.lookup "a")),
            ("x", QVal.plain (c.sf.lookup "x"))]

/-- From lokar/task.py AddTask.run: build the new field, insert it right
after the last existing field of the same tag and vocabulary (at the end when
none exists), run remove_duplicates, and return 1. -/
def addRun (c : MarcConcept) (r : MarcFields) : MarcFields × Nat :=
  let nf := mkAddField c
  let vm := fun f => f.tag == c.tag && fieldMatch f (vocabQuery c)
  let inserted := (insertAfterLastMatch vm nf r).getD (r ++ [nf])
  ((removeDuplicates c.tag (addDedupQuery c) inserted).1, 1)

/-- Modelled from the spec: MarcConcept.set_a_or_x_to (concept module not under
src/): place the ambiguous term into the given subfield code, replacing the
a_or_x marker in place. -/
def MarcConcept.set_a_or_x_to (c : MarcConcept) (code : String) : MarcConcept :=
  ⟨c.tag, c.term,
    c.sf.foldr (fun p acc =>
      if p.1 == "a_or_x" then (code, p.2) :: acc else p :: acc) []⟩

/-- From almar/job.py Job.generate_replace_tasks: when source and target are
both single-component and both carry the a_or_x marker, emit an exact a
placement task, a component a placement task and a component x placement
task; otherwise a single exact task. -/
def generateReplaceTasks (src dst : MarcConcept) : List ReplaceTask :=
  if src.components.length = 1 ∧ dst.components.length = 1
      ∧ (src.sf.lookup "a_or_x").isSome = true
      ∧ (dst.sf.lookup "a_or_x").isSome = true then
    ["a", "x"].foldl (fun tasks code =>
      let s := src.set_a_or_x_to code
      let d := dst.set_a_or_x_to code
      tasks ++ (if code == "a" then [ReplaceTask.mk s d false] else [])
        ++ [ReplaceTask.mk s d true]) []
  else
    [ReplaceTask.mk src dst false]

/-- A bibliographic record as streamed from the search collaborator: its
identifier and its field list. -/
structure MarcRec where
  id : String
  fields : MarcFields
deriving DecidableEq

/-- Modelled from the spec: str(field), the serialized form of a field used
by the free-text filter (marc module not under src/). -/
def fieldToStr (f : MarcField) : String :=
  f.tag ++ " " ++ f.ind1 ++ f.ind2 ++ " " ++
    " ".intercalate (f.subfields.map (fun p => "$" ++ p.1 ++ " " ++ p.2))

/-- ASCII lowercasing of a string (str.lower applied by Job.start). -/
def lowerStr (s : String) : String :=
  String.mk (s.toList.map Char.toLower)

/-- From almar/job.py Job.start: the free-text filter on one field; with no
grep the check succeeds, otherwise the (already lowercased) grep string must
be a substring of the lowercased serialized field. -/
def grepOk (grep : Option String) (f : MarcField) : Bool :=
  match grep with
  | none => true
  | some g => decide (g.toList <:+: (lowerStr (fieldToStr f)).toList)

/-- From almar/job.py Job.start, filtering loop body: for every step, the
record flag is or-ed with the step match and the grep flag is or-ed with the
per-field filter check. -/
def filterFlags (steps : List (MarcRec → Bool)) (grep : Option String)
    (rec : MarcRec) : Bool × Bool :=
  steps.foldl (fun flags step =>
    (flags.1 || step rec, flags.2 || rec.fields.any (grepOk grep))) (false, false)

/-- From almar/job.py Job.start: a candidate record is retained when both the
record flag and the grep flag end up true. -/
def retainRecord (steps : List (MarcRec → Bool)) (grep : Option String)
    (rec : MarcRec) : Bool :=
  (filterFlags steps grep rec).1 && (filterFlags steps grep rec).2

/-- The interactivity levels of almar/util.py. -/
inductive Interactivity where
  | none
  | standard
  | increased
deriving DecidableEq

/-- From almar/job.py Job.update_record: run every step in order on the
record, summing the returned change counts. -/
def runSteps (steps : List (MarcFields → MarcFields × Nat)) (r : MarcFields) :
    MarcFields × Nat :=
  steps.foldl (fun acc step =>
    let s := step acc.1
    (s.1, acc.2 + s.2)) (r, 0)

/-- From almar/job.py Job.update_record: if the summed change count is zero,
return zero without persisting; with increased interactivity a declined
prompt also returns zero without persisting; otherwise persist and return the
count. The result is the in-memory record after the runs, the returned
count, and whether put_record was called. -/
def updateRecord (inter : Interactivity) (ans : Bool)
    (steps : List (MarcFields → MarcFields × Nat)) (r : MarcFields) :
    MarcFields × Nat × Bool :=
  let s := runSteps steps r
  if s.2 = 0 then (s.1, 0, false)
  else if inter = Interactivity.increased ∧ ans = false then (s.1, 0, false)
  else (s.1, s.2, true)

/-- The catalog collaborator calls issued during the applying phase. -/
structure IlsTrace where
  getCalls : List String
  putCalls : List String
deriving DecidableEq

/-- From almar/job.py Job.start, Del 2: for each retained identifier, fetch
the record, update it, and when the returned count is positive increment
records_changed and add the count to changes_made. Returns the trace of
catalog calls and the two counters. -/
def applyPhase (ils : String → MarcFields) (inter : Interactivity)
    (ans : String → Bool) (steps : List (MarcFields → MarcFields × Nat))
    (valid : List String) : IlsTrace × Nat × Nat :=
  valid.foldl (fun acc id =>
    let u := updateRecord inter (ans id) steps (ils id)
    (⟨acc.1.getCalls ++ [id], acc.1.putCalls ++ (if u.2.2 then [id] else [])⟩,
     acc.2.1 + (if 0 < u.2.1 then 1 else 0),
     acc.2.2 + (if 0 < u.2.1 then u.2.1 else 0))) (⟨[], []⟩, 0, 0)

/-- Outcome of consuming the search collaborator stream: either the full
record list, or the TooManyResults signal (carrying the records already
yielded, which Job.start discards). -/
inductive SruOutcome where
  | ok (records : List MarcRec)
  | tooMany (seen : List MarcRec)

/-- From almar/job.py Job.start: on TooManyResults the job returns an empty
result set with no catalog calls; otherwise the candidates are filtered, an
empty retained set short-circuits, a declined batch confirmation (mutating
action, not a dry run, standard interactivity) aborts, and otherwise the
applying phase runs over the retained identifiers. -/
def jobStart (stepsM : List (MarcRec → Bool))
    (stepsR : List (MarcFields → MarcFields × Nat))
    (grep : Option String) (action : String) (dryRun : Bool)
    (inter : Interactivity) (ansContinue : Bool) (ansUpdate : String → Bool)
    (ils : String → MarcFields) (sru : SruOutcome) :
    List String × IlsTrace × Nat × Nat :=
  match sru with
  | .tooMany _ => ([], ⟨[], []⟩, 0, 0)
  | .ok records =>
      let valid := ((records.filter (retainRecord stepsM grep)).map
        (fun r => r.id)).eraseDups
      if valid.isEmpty then ([], ⟨[], []⟩, 0, 0)
      else if action ∉ ["interactive", "list"] ∧ dryRun = false
          ∧ inter = Interactivity.standard ∧ ansContinue = false then
        ([], ⟨[], []⟩, 0, 0)
      else
        (valid, applyPhase ils inter ansUpdate stepsR valid)

/-- From almar/job.py Job.authorize: nothing is sent for the remove action or
when there are no targets; otherwise every target concept is sent to the
authority collaborator (the first, then the rest). -/
def jobAuthorize (action : String) (targetConcepts : List MarcConcept) :
    List MarcConcept :=
  if action ∈ ["remove"] then []
  else if targetConcepts.isEmpty then []
  else targetConcepts

/-- Replace hyphens and dashes of a term with spaces (the re.sub step of
prepare_cql_query). -/
def dashesToSpaces (s : String) : String :=
  String.mk (s.toList.map (fun ch => if ch = '-' ∨ ch = '–' then ' ' else ch))

/-- From almar/job.py Job.__init__, prepare_cql_query: the sorted set of a
subjects clause and a vocabulary clause per source concept, joined with
AND. -/
def prepareCqlQuery (sourceConcepts : List MarcConcept) : String :=
  let parts := sourceConcepts.foldl (fun acc c =>
    acc ++ ["alma.subjects=\"" ++ dashesToSpaces c.term ++ "\"",
            "alma.authority_vocabulary=\"" ++ ((c.sf.lookup "2").getD "") ++ "\""]) []
  " AND ".intercalate (parts.eraseDups.mergeSort (fun a b => a ≤ b))

/-- Continuation of Job.__init__ after the 648/noubomn guard: authorize the
targets, then derive the search expression (the supplied one, or the prepared
one), failing when it is empty. Returns the concepts sent to the authority
collaborator together with the outcome. -/
def jobInitRest (action : String) (sourceConcepts targetConcepts : List MarcConcept)
    (cqlQuery : Option String) : List MarcConcept × Except String String :=
  let auth := jobAuthorize action targetConcepts
  let cql := cqlQuery.getD (prepareCqlQuery sourceConcepts)
  if cql = "" then (auth, Except.error "No query given.")
  else (auth, Except.ok cql)

/-- From almar/job.py Job.__init__: when the source concept list is non-empty
and its first concept has tag 648 and vocabulary noubomn, a RuntimeError is
raised before the authorize call and before the search expression is built;
otherwise initialization proceeds. -/
def jobInit (action : String) (sourceConcepts targetConcepts : List MarcConcept)
    (cqlQuery : Option String) : List MarcConcept × Except String String :=
  match sourceConcepts with
  | c :: _ =>
      if c.tag = "648" ∧ c.sf.lookup "2" = some "noubomn" then
        ([], Except.error
          "Editing 648 for noubomn is disabled until we get rid of the 650 duplicates")
      else jobInitRest action sourceConcepts targetConcepts cqlQuery
  | [] => jobInitRest action sourceConcepts targetConcepts cqlQuery

/-- The matching condition exactly as claim C1 words it: every literal code
must be present with an equal normalized value and every None code must be
absent; nothing is said about wildcard codes. Stated for comparison with the
matcher. -/
def matchCondC1 (f : MarcField) (q : List (String × SearchVal)) : Prop :=
  ∀ p ∈ q,
    match p.2 with
    | SearchVal.lit s =>
        ∃ v, f.getSf p.1 = some v ∧ normalizeTerm v = normalizeTerm s
    | SearchVal.absent => f.getSf p.1 = none
    | SearchVal.anyValue => True

/-- The canonical key exactly as claim C2 words it: the tag concatenated with
the populated subfields among a, b, x, y, z in fixed code order, with
normalized values. Stated for comparison with get_simple_subject_repr, which
walks the subfields in field order instead. -/
def canonicalKeySpecC2 (f : MarcField) : String :=
  " ".intercalate (f.tag :: ["a", "b", "x", "y", "z"].filterMap (fun c =>
    match f.getSf c with
    | some v => some ("$" ++ c ++ " " ++ normalizeTerm v)
    | none => none))

/-- The per-key selection predicate used to state the deduplication
properties: fields of the given tag matching the query whose key equals k. -/
def keyFilter (tag : String) (q : List (String × SearchVal)) (k : String)
    (f : MarcField) : Bool :=
  f.tag == tag && fieldMatch f q && (getSimpleSubjectRepr f == k)

/-- Concrete field of spec section 8: subfields a Cats, 2 vocabX. -/
def fEx : MarcField := ⟨"650", " ", "7", [("a", "Cats"), ("2", "vocabX")]⟩

/-- The same field with subfield a changed to Dogs. -/
def fExD : MarcField := ⟨"650", " ", "7", [("a", "Dogs"), ("2", "vocabX")]⟩

/-- The query of spec section 8: 2 vocabX and a Cats. -/
def qEx : List (String × SearchVal) := [("2", .lit "vocabX"), ("a", .lit "Cats")]

/-- A field with subfields a X, x Y, 2 voc, in that order. -/
def f1C2 : MarcField := ⟨"650", " ", "7", [("a", "X"), ("x", "Y"), ("2", "voc")]⟩

/-- The same content with subfields x and a swapped in the field order. -/
def f2C2 : MarcField := ⟨"650", " ", "7", [("x", "Y"), ("a", "X"), ("2", "voc")]⟩

/-- Source concept Cats in vocabulary noubomn. -/
def srcC6 : MarcConcept := ⟨"650", "Cats", [("a", "Cats"), ("2", "noubomn")]⟩

/-- Target concept Dogs. -/
def tgtC6 : MarcConcept := ⟨"650", "Dogs", [("a", "Dogs")]⟩

/-- A field already carrying the target heading Dogs. -/
def fDogs : MarcField := ⟨"650", " ", "7", [("a", "Dogs"), ("2", "noubomn")]⟩

/-- Source concept for the add scenarios. -/
def cC8 : MarcConcept := ⟨"650", "Cats", [("a", "Cats"), ("2", "noubomn")]⟩

/-- The exact field AddTask.run builds for cC8. -/
def fC8 : MarcField := ⟨"650", " ", "7", [("a", "Cats"), ("2", "noubomn")]⟩

/-- A source concept that also populates subfield 0. -/
def srcC9 : MarcConcept :=
  ⟨"650", "Cats", [("a", "Cats"), ("2", "noubomn"), ("0", "id1")]⟩

/-- Ambiguous single-component source concept (a_or_x marker set). -/
def srcC3 : MarcConcept := ⟨"650", "Cats", [("a_or_x", "Cats"), ("2", "noubomn")]⟩

/-- Ambiguous single-component target concept. -/
def dstC3 : MarcConcept := ⟨"650", "Dogs", [("a_or_x", "Dogs"), ("2", "noubomn")]⟩

/-- A record with one field, used by the filtering witnesses. -/
def recW : MarcRec := ⟨"990001", [fEx]⟩

/-- A 648 noubomn concept, used by the job construction witness. -/
def c648 : MarcConcept := ⟨"648", "Tid", [("a", "Tid"), ("2", "noubomn")]⟩

/-
Theorems.
-/

theorem find?_append_single {l : List (String × String)} {c v code : String}
    (h : code ≠ c) :
    (l ++ [(c, v)]).find? (fun p => p.1 == code)
      = l.find? (fun p => p.1 == code) := by
  induction l with
  | nil =>
      have hc : ((c, v).1 == code) = false := by
        simp only [beq_eq_false_iff_ne, ne_eq]
        exact fun hcc => h hcc.symm
      simp [List.find?, hc]
  | cons p ps ih =>
      cases hp : (p.1 == code) with
      | true => simp [List.find?, hp]
      | false => simp [List.find?, hp, ih]

theorem getSf_append_notin (f : MarcField) (c v code : String) (h : code ≠ c) :
    MarcField.getSf ⟨f.tag, f.ind1, f.ind2, f.subfields ++ [(c, v)]⟩ code
      = f.getSf code := by
  unfold MarcField.getSf
  rw [find?_append_single h]

theorem sfMatch_congr {f g : MarcField} (code : String) (sv : SearchVal)
    (h : f.getSf code = g.getSf code) :
    sfMatch f code sv = sfMatch g code sv := by
  cases sv <;> simp [sfMatch, h]

theorem sfMatch_eq_true_iff (f : MarcField) (code : String) (sv : SearchVal) :
    sfMatch f code sv = true ↔
      (match sv with
       | SearchVal.lit s =>
           ∃ v, f.getSf code = some v ∧ normalizeTerm v = normalizeTerm s
       | SearchVal.absent => f.getSf code = none
       | SearchVal.anyValue => (f.getSf code).isSome = true) := by
  cases sv with
  | lit s =>
      cases h : f.getSf code with
      | none => simp [sfMatch, h]
      | some v => simp [sfMatch, h, beq_iff_eq]
  | anyValue => simp [sfMatch]
  | absent => simp [sfMatch, Option.isNone_iff_eq_none]

/-- Claim C1 (corrected): the matcher is the condition stated by the claim
strengthened with the wildcard clause: an ANY_VALUE code additionally
requires the subfield to be present. The matcher also never inspects codes
absent from the query (appending a subfield of an unconstrained code leaves
the verdict unchanged), and the two concrete examples of the claim hold. -/
theorem claim_C1_amended :
    (∀ (f : MarcField) (q : List (String × SearchVal)),
      fieldMatch f q = true ↔
        (matchCondC1 f q ∧
          ∀ p ∈ q, p.2 = SearchVal.anyValue → (f.getSf p.1).isSome = true))
    ∧ (∀ (f : MarcField) (q : List (String × SearchVal)) (c v : String),
        (∀ p ∈ q, p.1 ≠ c) →
        fieldMatch ⟨f.tag, f.ind1, f.ind2, f.subfields ++ [(c, v)]⟩ q
          = fieldMatch f q)
    ∧ fieldMatch fEx qEx = true
    ∧ fieldMatch fExD qEx = false := by
  refine ⟨?_, ?_, by decide, by decide⟩
  · intro f q
    rw [fieldMatch, List.all_eq_true]
    constructor
    · intro h
      refine ⟨fun p hp => ?_, fun p hp hv => ?_⟩
      · have hs := (sfMatch_eq_true_iff f p.1 p.2).1 (h p hp)
        cases hsv : p.2 with
        | lit s => rw [hsv] at hs; exact hs
        | anyValue => trivial
        | absent => rw [hsv] at hs; exact hs
      · have hs := (sfMatch_eq_true_iff f p.1 p.2).1 (h p hp)
        rw [hv] at hs
        exact hs
    · rintro ⟨h1, h2⟩ p hp
      rw [sfMatch_eq_true_iff]
      have hc := h1 p hp
      cases hsv : p.2 with
      | lit s => rw [hsv] at hc; exact hc
      | absent => rw [hsv] at hc; exact hc
      | anyValue => exact h2 p hp hsv
  · intro f q c v h
    simp only [fieldMatch]
    induction q with
    | nil => rfl
    | cons p ps ih =>
        simp only [List.all_cons]
        rw [ih (fun x hx => h x (List.mem_cons_of_mem _ hx)),
          sfMatch_congr p.1 p.2
            (getSf_append_notin f c v p.1 (h p (List.mem_cons_self _ _)))]

/-- Claim C1 counterexample: on a query carrying the ANY_VALUE wildcard the
condition of the claim holds for a field with no subfields, yet the matcher
rejects the field (the claim omits the wildcard presence requirement). -/
theorem claim_C1_counterexample :
    fieldMatch ⟨"650", " ", "7", []⟩ [("0", SearchVal.anyValue)] = false
    ∧ matchCondC1 ⟨"650", " ", "7", []⟩ [("0", SearchVal.anyValue)] := by
  refine ⟨by decide, ?_⟩
  intro p hp
  simp only [List.mem_singleton] at hp
  subst hp
  trivial

/-- Witness for claim C1: the frame property at a concrete field and query,
and the concrete positive example. -/
theorem claim_C1_witness :
    fieldMatch ⟨fEx.tag, fEx.ind1, fEx.ind2, fEx.subfields ++ [("q", "Note")]⟩ qEx
      = fieldMatch fEx qEx
    ∧ fieldMatch fEx qEx = true :=
  ⟨claim_C1_amended.2.1 fEx qEx "q" "Note" (by decide), claim_C1_amended.2.2.1⟩

theorem removeDupsGo_idem (tag : String) (q : List (String × SearchVal)) :
    ∀ (r : MarcFields) (keys : List String),
      removeDupsGo tag q keys (removeDupsGo tag q keys r).1
        = ((removeDupsGo tag q keys r).1, 0) := by
  intro r
  induction r with
  | nil => intro keys; rfl
  | cons f fs ih =>
      intro keys
      by_cases hm : (f.tag == tag && fieldMatch f q) = true
      · by_cases hk : getSimpleSubjectRepr f ∈ keys
        · simp only [removeDupsGo, if_pos hm, if_pos hk]
          exact ih keys
        · simp only [removeDupsGo, if_pos hm, if_neg hk,
            ih (keys ++ [getSimpleSubjectRepr f])]
      · simp only [removeDupsGo, if_neg hm, ih keys]

theorem removeDupsGo_length (tag : String) (q : List (String × SearchVal)) :
    ∀ (r : MarcFields) (keys : List String),
      (removeDupsGo tag q keys r).1.length + (removeDupsGo tag q keys r).2
        = r.length := by
  intro r
  induction r with
  | nil => intro keys; rfl
  | cons f fs ih =>
      intro keys
      by_cases hm : (f.tag == tag && fieldMatch f q) = true
      · by_cases hk : getSimpleSubjectRepr f ∈ keys
        · simp only [removeDupsGo, if_pos hm, if_pos hk, List.length_cons]
          have := ih keys
          omega
        · simp only [removeDupsGo, if_pos hm, if_neg hk, List.length_cons]
          have := ih (keys ++ [getSimpleSubjectRepr f])
          omega
      · simp only [removeDupsGo, if_neg hm, List.length_cons]
        have := ih keys
        omega

theorem removeDupsGo_keyFilter (tag : String) (q : List (String × SearchVal)) :
    ∀ (r : MarcFields) (keys : List String) (k : String),
      (removeDupsGo tag q keys r).1.filter (keyFilter tag q k)
        = if k ∈ keys then [] else (r.filter (keyFilter tag q k)).take 1 := by
  intro r
  induction r with
  | nil =>
      intro keys k
      by_cases hk : k ∈ keys <;> simp [removeDupsGo, hk]
  | cons f fs ih =>
      intro keys k
      by_cases hm : (f.tag == tag && fieldMatch f q) = true
      · by_cases hkin : getSimpleSubjectRepr f ∈ keys
        · have hg : removeDupsGo tag q keys (f :: fs)
              = ((removeDupsGo tag q keys fs).1,
                 (removeDupsGo tag q keys fs).2 + 1) := by
            simp [removeDupsGo, hm, hkin]
          rw [hg]
          by_cases hkey : getSimpleSubjectRepr f = k
          · have hkk : k ∈ keys := hkey ▸ hkin
            rw [ih keys k, if_pos hkk, if_pos hkk]
          · have hf : keyFilter tag q k f = false := by
              simp [keyFilter, hm, hkey]
            rw [ih keys k]
            simp [List.filter_cons, hf]
        · have hg : removeDupsGo tag q keys (f :: fs)
              = (f :: (removeDupsGo tag q (keys ++ [getSimpleSubjectRepr f]) fs).1,
                 (removeDupsGo tag q (keys ++ [getSimpleSubjectRepr f]) fs).2) := by
            simp [removeDupsGo, hm, hkin]
          rw [hg]
          by_cases hkey : getSimpleSubjectRepr f = k
          · have hkk : ¬ k ∈ keys := hkey ▸ hkin
            have hf : keyFilter tag q k f = true := by
              simp [keyFilter, hm, hkey]
            have hmem : k ∈ keys ++ [getSimpleSubjectRepr f] := by
              rw [List.mem_append]
              exact Or.inr (by simp [hkey])
            rw [show (f :: (removeDupsGo tag q (keys ++ [getSimpleSubjectRepr f]) fs).1,
                 (removeDupsGo tag q (keys ++ [getSimpleSubjectRepr f]) fs).2).1
                = f :: (removeDupsGo tag q (keys ++ [getSimpleSubjectRepr f]) fs).1 from rfl]
            rw [List.filter_cons]
            simp only [hf, if_true]
            rw [ih (keys ++ [getSimpleSubjectRepr f]) k, if_pos hmem, if_neg hkk]
            simp [List.filter_cons, hf]
          · have hf : keyFilter tag q k f = false := by
              simp [keyFilter, hm, hkey]
            have hmem : (k ∈ keys ++ [getSimpleSubjectRepr f]) ↔ k ∈ keys := by
              rw [List.mem_append]
              constructor
              · rintro (h1 | h1)
                · exact h1
                · have h2 : k = getSimpleSubjectRepr f := by simpa using h1
                  exact absurd h2.symm hkey
              · exact fun h1 => Or.inl h1
            rw [show (f :: (removeDupsGo tag q (keys ++ [getSimpleSubjectRepr f]) fs).1,
                 (removeDupsGo tag q (keys ++ [getSimpleSubjectRepr f]) fs).2).1
                = f :: (removeDupsGo tag q (keys ++ [getSimpleSubjectRepr f]) fs).1 from rfl]
            rw [List.filter_cons]
            simp only [hf, Bool.false_eq_true, if_false]
            rw [ih (keys ++ [getSimpleSubjectRepr f]) k, if_congr hmem rfl rfl]
            simp [List.filter_cons, hf]
      · have hm0 : (f.tag == tag && fieldMatch f q) = false := by
          cases hb : (f.tag == tag && fieldMatch f q)
          · rfl
          · exact absurd hb hm
        have hf : keyFilter tag q k f = false := by
          simp [keyFilter, hm0]
        have hg : removeDupsGo tag q keys (f :: fs)
            = (f :: (removeDupsGo tag q keys fs).1,
               (removeDupsGo tag q keys fs).2) := by
          simp [removeDupsGo, hm0]
        rw [hg]
        rw [show (f :: (removeDupsGo tag q keys fs).1,
             (removeDupsGo tag q keys fs).2).1
            = f :: (removeDupsGo tag q keys fs).1 from rfl]
        rw [List.filter_cons]
        simp only [hf, Bool.false_eq_true, if_false]
        rw [ih keys k]
        simp [List.filter_cons, hf]

/-- Claim C2 (corrected): the deduplicator is idempotent, every removal is
counted (kept plus removed equals the original length), for every key the
kept matching fields of that key are exactly the first-seen matching field of
that key (later ones are removed), and hence at most one field per key
remains among the fields sharing the tag and matching the query. The key here
is the one the code computes: populated a, b, x, y, z subfields in the order
they appear on the field, not in fixed code order. -/
theorem claim_C2_amended :
    ∀ (tag : String) (q : List (String × SearchVal)) (r : MarcFields),
      removeDuplicates tag q (removeDuplicates tag q r).1
          = ((removeDuplicates tag q r).1, 0)
      ∧ (removeDuplicates tag q r).1.length + (removeDuplicates tag q r).2
          = r.length
      ∧ (∀ k, (removeDuplicates tag q r).1.filter (keyFilter tag q k)
            = (r.filter (keyFilter tag q k)).take 1)
      ∧ (∀ k, ((removeDuplicates tag q r).1.filter (keyFilter tag q k)).length ≤ 1) := by
  intro tag q r
  refine ⟨removeDupsGo_idem tag q r [], removeDupsGo_length tag q r [],
    fun k => ?_, fun k => ?_⟩
  · have h := removeDupsGo_keyFilter tag q r [] k
    simpa [removeDuplicates] using h
  · have h := removeDupsGo_keyFilter tag q r [] k
    simp only [removeDuplicates]
    rw [h]
    simp [List.length_take]

/-- Claim C2 counterexample: two fields carrying the same populated subfields
in different field order share the canonical key of the claim (fixed code
order), both carry the task tag and match the query, yet the deduplicator
removes neither, so two fields with that canonical key remain. -/
theorem claim_C2_counterexample :
    removeDuplicates "650" [("2", SearchVal.lit "voc")] [f1C2, f2C2]
      = ([f1C2, f2C2], 0)
    ∧ canonicalKeySpecC2 f1C2 = canonicalKeySpecC2 f2C2
    ∧ f1C2 ≠ f2C2
    ∧ ((recordFields
        (removeDuplicates "650" [("2", SearchVal.lit "voc")] [f1C2, f2C2]).1
        "650" [("2", SearchVal.lit "voc")]).countP
          (fun f => canonicalKeySpecC2 f == canonicalKeySpecC2 f1C2)) = 2 := by
  decide

theorem lookup_replAorX_self (code : String) :
    ∀ (sf : List (String × String)), sf.lookup code = none →
      (sf.foldr (fun p acc =>
        if p.1 == "a_or_x" then (code, p.2) :: acc else p :: acc) []).lookup code
        = sf.lookup "a_or_x" := by
  intro sf
  induction sf with
  | nil => intro _; rfl
  | cons p ps ih =>
      obtain ⟨k, v⟩ := p
      intro h
      cases hck : (code == k) with
      | true =>
          exfalso
          rw [List.lookup_cons, hck] at h
          exact Option.noConfusion h
      | false =>
          rw [List.lookup_cons, hck] at h
          by_cases hak : (k == "a_or_x") = true
          · have hk : k = "a_or_x" := beq_iff_eq.mp hak
            simp only [List.foldr_cons, hak, if_true]
            rw [List.lookup_cons, beq_self_eq_true, List.lookup_cons]
            have : ("a_or_x" == k) = true := by
              rw [hk]
              exact beq_self_eq_true _
            rw [this]
          · have hak0 : (k == "a_or_x") = false := by
              cases hb : (k == "a_or_x")
              · rfl
              · exact absurd hb hak
            simp only [List.foldr_cons, hak0, Bool.false_eq_true, if_false]
            rw [List.lookup_cons, hck, ih h, List.lookup_cons]
            have : ("a_or_x" == k) = false := by
              rw [beq_eq_false_iff_ne] at hak0 ⊢
              exact fun hx => hak0 hx.symm
            rw [this]
  
theorem lookup_replAorX_other (code code2 : String) (hne : code2 ≠ code) :
    ∀ (sf : List (String × String)), sf.lookup code2 = none →
      (sf.foldr (fun p acc =>
        if p.1 == "a_or_x" then (code, p.2) :: acc else p :: acc) []).lookup code2
        = none := by
  intro sf
  induction sf with
  | nil => intro _; rfl
  | cons p ps ih =>
      obtain ⟨k, v⟩ := p
      intro h
      cases hck : (code2 == k) with
      | true =>
          exfalso
          rw [List.lookup_cons, hck] at h
          exact Option.noConfusion h
      | false =>
          rw [List.lookup_cons, hck] at h
          by_cases hak : (k == "a_or_x") = true
          · simp only [List.foldr_cons, hak, if_true]
            rw [List.lookup_cons]
            have hcc : (code2 == code) = false := by
              rw [beq_eq_false_iff_ne]
              exact hne
            rw [hcc, ih h]
          · have hak0 : (k == "a_or_x") = false := by
              cases hb : (k == "a_or_x")
              · rfl
              · exact absurd hb hak
            simp only [List.foldr_cons, hak0, Bool.false_eq_true, if_false]
            rw [List.lookup_cons, hck, ih h]

/-- Claim C3 (confirmed): for single-component source and target concepts
that both designate the ambiguous a-or-x placement (and, per the concept
model, do not yet populate a or x directly), task generation yields exactly 3
Replace tasks: an exact-match task with the term in subfield a, a
component-match task with the term in subfield a, and a component-match task
with the term in subfield x; any other source and target pair yields exactly
one exact-match task. -/
theorem claim_C3 :
    ∀ src dst : MarcConcept,
      (src.components.length = 1 → dst.components.length = 1 →
       (src.sf.lookup "a_or_x").isSome = true →
       (dst.sf.lookup "a_or_x").isSome = true →
       src.sf.lookup "a" = none → src.sf.lookup "x" = none →
       dst.sf.lookup "a" = none → dst.sf.lookup "x" = none →
       ((generateReplaceTasks src dst).length = 3
        ∧ (generateReplaceTasks src dst).map (fun t => t.ignore_extra_components)
            = [false, true, true]
        ∧ (∀ t ∈ (generateReplaceTasks src dst).take 2,
            t.source.sf.lookup "a" = src.sf.lookup "a_or_x"
            ∧ t.target.sf.lookup "a" = dst.sf.lookup "a_or_x"
            ∧ t.source.sf.lookup "x" = none)
        ∧ (∀ t ∈ (generateReplaceTasks src dst).drop 2,
            t.source.sf.lookup "x" = src.sf.lookup "a_or_x"
            ∧ t.target.sf.lookup "x" = dst.sf.lookup "a_or_x"
            ∧ t.source.sf.lookup "a" = none)))
      ∧ (¬(src.components.length = 1 ∧ dst.components.length = 1
            ∧ (src.sf.lookup "a_or_x").isSome = true
            ∧ (dst.sf.lookup "a_or_x").isSome = true) →
          generateReplaceTasks src dst = [ReplaceTask.mk src dst false]) := by
  intro src dst
  constructor
  · intro h1 h2 h3 h4 hsa hsx hda hdx
    have hcond : src.components.length = 1 ∧ dst.components.length = 1
        ∧ (src.sf.lookup "a_or_x").isSome = true
        ∧ (dst.sf.lookup "a_or_x").isSome = true := ⟨h1, h2, h3, h4⟩
    have hlist : generateReplaceTasks src dst =
        [ReplaceTask.mk (src.set_a_or_x_to "a") (dst.set_a_or_x_to "a") false,
         ReplaceTask.mk (src.set_a_or_x_to "a") (dst.set_a_or_x_to "a") true,
         ReplaceTask.mk (src.set_a_or_x_to "x") (dst.set_a_or_x_to "x") true] := by
      unfold generateReplaceTasks
      rw [if_pos hcond]
      rfl
    have hGsa : (src.set_a_or_x_to "a").sf.lookup "a" = src.sf.lookup "a_or_x" :=
      lookup_replAorX_self "a" src.sf hsa
    have hGda : (dst.set_a_or_x_to "a").sf.lookup "a" = dst.sf.lookup "a_or_x" :=
      lookup_replAorX_self "a" dst.sf hda
    have hGsx : (src.set_a_or_x_to "x").sf.lookup "x" = src.sf.lookup "a_or_x" :=
      lookup_replAorX_self "x" src.sf hsx
    have hGdx : (dst.set_a_or_x_to "x").sf.lookup "x" = dst.sf.lookup "a_or_x" :=
      lookup_replAorX_self "x" dst.sf hdx
    have hGsax : (src.set_a_or_x_to "a").sf.lookup "x" = none :=
      lookup_replAorX_other "a" "x" (by decide) src.sf hsx
    have hGsxa : (src.set_a_or_x_to "x").sf.lookup "a" = none :=
      lookup_replAorX_other "x" "a" (by decide) src.sf hsa
    rw [hlist]
    refine ⟨rfl, rfl, ?_, ?_⟩
    · intro t ht
      simp only [List.take, List.mem_cons, List.not_mem_nil, or_false] at ht
      rcases ht with ht | ht <;> subst ht <;> exact ⟨hGsa, hGda, hGsax⟩
    · intro t ht
      simp only [List.drop, List.mem_singleton] at ht
      subst ht
      exact ⟨hGsx, hGdx, hGsxa⟩
  · intro hcond
    unfold generateReplaceTasks
    rw [if_neg hcond]

/-- Witness for claim C3 at concrete ambiguous concepts Cats and Dogs. -/
theorem claim_C3_witness :
    (generateReplaceTasks srcC3 dstC3).length = 3
    ∧ (generateReplaceTasks srcC3 dstC3).map (fun t => t.ignore_extra_components)
        = [false, true, true]
    ∧ (∀ t ∈ (generateReplaceTasks srcC3 dstC3).take 2,
        t.source.sf.lookup "a" = srcC3.sf.lookup "a_or_x"
        ∧ t.target.sf.lookup "a" = dstC3.sf.lookup "a_or_x"
        ∧ t.source.sf.lookup "x" = none)
    ∧ (∀ t ∈ (generateReplaceTasks srcC3 dstC3).drop 2,
        t.source.sf.lookup "x" = srcC3.sf.lookup "a_or_x"
        ∧ t.target.sf.lookup "x" = dstC3.sf.lookup "a_or_x"
        ∧ t.source.sf.lookup "a" = none) :=
  (claim_C3 srcC3 dstC3).1 (by decide) (by decide) (by decide) (by decide)
    (by decide) (by decide) (by decide) (by decide)

theorem filterFlags_foldl (grep : Option String) (rec : MarcRec) :
    ∀ (steps : List (MarcRec → Bool)) (a b : Bool),
      steps.foldl (fun flags step =>
        (flags.1 || step rec, flags.2 || rec.fields.any (grepOk grep))) (a, b)
      = (a || steps.any (fun s => s rec),
         b || (!steps.isEmpty && rec.fields.any (grepOk grep))) := by
  intro steps
  induction steps with
  | nil => intro a b; simp
  | cons s rest ih =>
      intro a b
      rw [List.foldl_cons, ih, Prod.mk.injEq]
      refine ⟨by rw [List.any_cons, Bool.or_assoc], ?_⟩
      rw [List.isEmpty_cons]
      cases hg : rec.fields.any (grepOk grep) <;>
        cases he : rest.isEmpty <;> cases b <;> rfl

theorem retainRecord_eq (steps : List (MarcRec → Bool)) (grep : Option String)
    (rec : MarcRec) :
    retainRecord steps grep rec
      = (steps.any (fun s => s rec) && rec.fields.any (grepOk grep)) := by
  rw [retainRecord, filterFlags, filterFlags_foldl]
  cases ha : steps.any (fun s => s rec)
  · simp
  · have hne : steps.isEmpty = false := by
      cases steps with
      | nil => simp [List.any_nil] at ha
      | cons x xs => rfl
    simp [hne]

/-- Claim C4 (corrected): a candidate record is retained iff at least one of
the job steps matches it and at least one of its fields passes the free-text
filter; with no grep supplied the filter check on one field always succeeds,
so the residual requirement beyond a step match is that the record carries at
least one field (the per-field grep loop never sets the grep flag on a record
without fields). -/
theorem claim_C4_amended :
    ∀ (steps : List (MarcRec → Bool)) (grep : Option String) (rec : MarcRec),
      retainRecord steps grep rec = true ↔
        ((∃ s ∈ steps, s rec = true) ∧ ∃ f ∈ rec.fields, grepOk grep f = true) := by
  intro steps grep rec
  rw [retainRecord_eq, Bool.and_eq_true, List.any_eq_true, List.any_eq_true]

/-- Claim C4 counterexample: a record without fields and a step that matches
it; the claim says the record is retained when no grep filter is supplied,
but the code does not retain it. -/
theorem claim_C4_counterexample :
    retainRecord [fun _ => true] Option.none ⟨"990002", []⟩ = false
    ∧ ([fun (_ : MarcRec) => true].any (fun s => s ⟨"990002", []⟩)) = true :=
  ⟨rfl, rfl⟩

/-- Witness for claim C4: a record with one field and a step matching any
record with fields is retained when no grep filter is supplied. -/
theorem claim_C4_witness :
    (∃ s ∈ ([fun (r : MarcRec) => !r.fields.isEmpty] : List (MarcRec → Bool)),
        s recW = true)
    ∧ ∃ f ∈ recW.fields, grepOk Option.none f = true :=
  (claim_C4_amended [fun (r : MarcRec) => !r.fields.isEmpty] Option.none recW).1 rfl

/-- Claim C5 (confirmed): when the search collaborator signals the 10,000
record retrieval ceiling, the job returns an empty result set and the catalog
collaborator receives zero get_record and zero put_record calls, whatever was
already streamed and whatever the job parameters are. -/
theorem claim_C5 :
    ∀ (stepsM : List (MarcRec → Bool))
      (stepsR : List (MarcFields → MarcFields × Nat))
      (grep : Option String) (action : String) (dryRun : Bool)
      (inter : Interactivity) (ansContinue : Bool) (ansUpdate : String → Bool)
      (ils : String → MarcFields) (seen : List MarcRec),
      jobStart stepsM stepsR grep action dryRun inter ansContinue ansUpdate ils
          (SruOutcome.tooMany seen)
        = ([], ⟨[], []⟩, 0, 0) := by
  intro stepsM stepsR grep action dryRun inter ansContinue ansUpdate ils seen
  rfl

theorem applyPhase_foldl (ils : String → MarcFields) (inter : Interactivity)
    (ans : String → Bool) (steps : List (MarcFields → MarcFields × Nat)) :
    ∀ (valid : List String) (tr : IlsTrace) (rc cm : Nat),
      valid.foldl (fun acc id =>
        let u := updateRecord inter (ans id) steps (ils id)
        (⟨acc.1.getCalls ++ [id], acc.1.putCalls ++ (if u.2.2 then [id] else [])⟩,
         acc.2.1 + (if 0 < u.2.1 then 1 else 0),
         acc.2.2 + (if 0 < u.2.1 then u.2.1 else 0))) (tr, rc, cm)
      = (⟨tr.getCalls ++ valid,
          tr.putCalls ++ valid.filter
            (fun id => (updateRecord inter (ans id) steps (ils id)).2.2)⟩,
         rc + (valid.filter
            (fun id => 0 < (updateRecord inter (ans id) steps (ils id)).2.1)).length,
         cm + (valid.map
            (fun id => (updateRecord inter (ans id) steps (ils id)).2.1)).sum) := by
  intro valid
  induction valid with
  | nil =>
      intro tr rc cm
      simp
  | cons id rest ih =>
      intro tr rc cm
      rw [List.foldl_cons, ih]
      by_cases hp : (updateRecord inter (ans id) steps (ils id)).2.2 = true
      · by_cases hc : 0 < (updateRecord inter (ans id) steps (ils id)).2.1
        · simp [List.filter_cons, hp, hc, List.append_assoc]
          omega
        · simp [List.filter_cons, hp, hc, List.append_assoc]
          omega
      · by_cases hc : 0 < (updateRecord inter (ans id) steps (ils id)).2.1
        · simp [List.filter_cons, hp, hc, List.append_assoc]
          omega
        · simp [List.filter_cons, hp, hc, List.append_assoc]
          omega

theorem applyPhase_spec (ils : String → MarcFields) (inter : Interactivity)
    (ans : String → Bool) (steps : List (MarcFields → MarcFields × Nat))
    (valid : List String) :
    applyPhase ils inter ans steps valid
      = (⟨valid,
          valid.filter (fun id => (updateRecord inter (ans id) steps (ils id)).2.2)⟩,
         (valid.filter
            (fun id => 0 < (updateRecord inter (ans id) steps (ils id)).2.1)).length,
         (valid.map
            (fun id => (updateRecord inter (ans id) steps (ils id)).2.1)).sum) := by
  rw [applyPhase, applyPhase_foldl]
  simp

/-- Claim C6 (corrected): update_record runs every step in order and sums the
change counts; a zero sum yields a zero return with no put_record call, and in
the applying phase such a record is absent from the put trace and contributes
nothing to the records_changed and changes_made counters. The in-memory
record, however, may have been modified by the step runs even when the sum is
zero, so only persistence and the counters are unaffected. -/
theorem claim_C6_amended :
    (∀ (inter : Interactivity) (ans : Bool)
       (steps : List (MarcFields → MarcFields × Nat)) (r : MarcFields),
       (runSteps steps r).2 = 0 →
       updateRecord inter ans steps r = ((runSteps steps r).1, 0, false))
    ∧ (∀ (ils : String → MarcFields) (inter : Interactivity)
         (ans : String → Bool) (steps : List (MarcFields → MarcFields × Nat))
         (valid : List String) (id : String),
         (runSteps steps (ils id)).2 = 0 →
         id ∉ (applyPhase ils inter ans steps valid).1.putCalls
         ∧ (updateRecord inter (ans id) steps (ils id)).2.1 = 0)
    ∧ (∀ (ils : String → MarcFields) (inter : Interactivity)
         (ans : String → Bool) (steps : List (MarcFields → MarcFields × Nat))
         (valid : List String),
         (applyPhase ils inter ans steps valid).2.1
            = (valid.filter
                (fun id => 0 < (updateRecord inter (ans id) steps (ils id)).2.1)).length
         ∧ (applyPhase ils inter ans steps valid).2.2
            = (valid.map
                (fun id => (updateRecord inter (ans id) steps (ils id)).2.1)).sum) := by
  have hupd : ∀ (inter : Interactivity) (ans : Bool)
      (steps : List (MarcFields → MarcFields × Nat)) (r : MarcFields),
      (runSteps steps r).2 = 0 →
      updateRecord inter ans steps r = ((runSteps steps r).1, 0, false) := by
    intro inter ans steps r h
    rw [updateRecord, if_pos h]
  refine ⟨hupd, ?_, ?_⟩
  · intro ils inter ans steps valid id h
    have h2 := hupd inter (ans id) steps (ils id) h
    constructor
    · rw [applyPhase_spec]
      intro hmem
      have := List.of_mem_filter hmem
      rw [h2] at this
      exact Bool.noConfusion this
    · rw [h2]
  · intro ils inter ans steps valid
    rw [applyPhase_spec]
    exact ⟨rfl, rfl⟩

/-- Claim C6 counterexample: a Replace step whose update count is zero but
whose deduplication pass removes a field. update_record returns zero and does
not persist, yet the in-memory record differs from the input, against the
claim that the record is left unchanged. -/
theorem claim_C6_counterexample :
    updateRecord Interactivity.none true
        [(ReplaceTask.mk srcC6 tgtC6 false).run] [fDogs, fDogs]
      = ([fDogs], 0, false)
    ∧ ([fDogs] : MarcFields) ≠ [fDogs, fDogs] := by
  constructor
  · decide
  · decide

/-- Witness for claim C6: the zero-change branch at a concrete record. -/
theorem claim_C6_witness :
    updateRecord Interactivity.standard true [] [fDogs] = ([fDogs], 0, false) :=
  claim_C6_amended.1 Interactivity.standard true [] [fDogs] rfl

theorem insertAfterLastMatch_none (vm : MarcField → Bool) (nf : MarcField) :
    ∀ (r : MarcFields), insertAfterLastMatch vm nf r = none →
      ∀ g ∈ r, vm g = false := by
  intro r
  induction r with
  | nil => intro _ g hg; exact absurd hg (List.not_mem_nil g)
  | cons f fs ih =>
      intro h g hg
      rw [insertAfterLastMatch] at h
      cases h2 : insertAfterLastMatch vm nf fs with
      | some fs2 => rw [h2] at h; exact Option.noConfusion h
      | none =>
          rw [h2] at h
          by_cases hvm : vm f = true
          · rw [if_pos hvm] at h
            exact Option.noConfusion h
          · have hvm0 : vm f = false := by
              cases hb : vm f
              · rfl
              · exact absurd hb hvm
            rcases List.mem_cons.mp hg with hg1 | hg1
            · subst hg1; exact hvm0
            · exact ih h2 g hg1

theorem insertAfterLastMatch_some (vm : MarcField → Bool) (nf : MarcField) :
    ∀ (r r2 : MarcFields), insertAfterLastMatch vm nf r = some r2 →
      ∃ k, k ≤ r.length
        ∧ r2 = r.take k ++ nf :: r.drop k
        ∧ (∀ g ∈ r.drop k, vm g = false)
        ∧ ∃ g, (r.take k).getLast? = some g ∧ vm g = true := by
  intro r
  induction r with
  | nil => intro r2 h; exact absurd h (Option.noConfusion)
  | cons f fs ih =>
      intro r2 h
      rw [insertAfterLastMatch] at h
      cases h2 : insertAfterLastMatch vm nf fs with
      | some fs2 =>
          rw [h2] at h
          obtain rfl : f :: fs2 = r2 := Option.some.inj h
          obtain ⟨k, hk, heq, hdrop, g, hlast, hvm⟩ := ih fs2 h2
          refine ⟨k + 1, by simp only [List.length_cons]; omega, ?_, ?_, g, ?_, hvm⟩
          · rw [List.take_succ_cons, List.drop_succ_cons, heq, List.cons_append]
          · intro g2 hg2
            rw [List.drop_succ_cons] at hg2
            exact hdrop g2 hg2
          · cases htk : fs.take k with
            | nil =>
                rw [htk] at hlast
                exact absurd hlast (by simp)
            | cons t ts =>
                rw [List.take_succ_cons, htk, List.getLast?_cons_cons]
                rw [htk] at hlast
                exact hlast
      | none =>
          rw [h2] at h
          by_cases hvm : vm f = true
          · rw [if_pos hvm] at h
            obtain rfl : f :: nf :: fs = r2 := Option.some.inj h
            refine ⟨1, by simp, rfl, ?_, f, rfl, hvm⟩
            intro g hg
            exact insertAfterLastMatch_none vm nf fs h2 g hg
          · rw [if_neg hvm] at h
            exact absurd h (Option.noConfusion)

/-- Claim C7 (confirmed): AddTask.run inserts the newly built field at a
position k that lies immediately after the last existing field of the same
tag and vocabulary (no field from k on matches, and the fields before k end
with a matching field), or at the end of the record exactly when no field of
the record matches at all (then k is the record length); the deduplicator is
then run on the result, and the call returns count 1. The two disjuncts pin
k uniquely: an implementation that always appended at the end would violate
the second disjunct whenever a matching field exists. -/
theorem claim_C7 :
    ∀ (c : MarcConcept) (r : MarcFields), ∃ k,
      k ≤ r.length
      ∧ addRun c r = ((removeDuplicates c.tag (addDedupQuery c)
          (r.take k ++ mkAddField c :: r.drop k)).1, 1)
      ∧ (∀ g ∈ r.drop k, (g.tag == c.tag && fieldMatch g (vocabQuery c)) = false)
      ∧ ((k = r.length
            ∧ ∀ g ∈ r, (g.tag == c.tag && fieldMatch g (vocabQuery c)) = false)
          ∨ ∃ g, (r.take k).getLast? = some g
              ∧ (g.tag == c.tag && fieldMatch g (vocabQuery c)) = true) := by
  intro c r
  cases h : insertAfterLastMatch
      (fun f => f.tag == c.tag && fieldMatch f (vocabQuery c)) (mkAddField c) r with
  | none =>
      refine ⟨r.length, Nat.le_refl _, ?_, ?_,
        Or.inl ⟨rfl, insertAfterLastMatch_none
          (fun f => f.tag == c.tag && fieldMatch f (vocabQuery c))
          (mkAddField c) r h⟩⟩
      · simp only [addRun]
        rw [h, Option.getD_none, List.take_length, List.drop_length]
      · intro g hg
        rw [List.drop_length] at hg
        exact absurd hg (List.not_mem_nil g)
  | some r2 =>
      obtain ⟨k, hk, heq, hdrop, hex⟩ := insertAfterLastMatch_some
        (fun f => f.tag == c.tag && fieldMatch f (vocabQuery c)) (mkAddField c)
        r r2 h
      refine ⟨k, hk, ?_, hdrop, Or.inr hex⟩
      simp only [addRun]
      rw [h, Option.getD_some, heq]

/-- Witness for claim C7 at a concrete concept and one-field record. -/
theorem claim_C7_witness :
    ∃ k, k ≤ ([fC8] : MarcFields).length
      ∧ addRun cC8 [fC8] = ((removeDuplicates cC8.tag (addDedupQuery cC8)
          (([fC8] : MarcFields).take k
            ++ mkAddField cC8 :: ([fC8] : MarcFields).drop k)).1, 1)
      ∧ (∀ g ∈ ([fC8] : MarcFields).drop k,
          (g.tag == cC8.tag && fieldMatch g (vocabQuery cC8)) = false)
      ∧ ((k = ([fC8] : MarcFields).length
            ∧ ∀ g ∈ ([fC8] : MarcFields),
                (g.tag == cC8.tag && fieldMatch g (vocabQuery cC8)) = false)
          ∨ ∃ g, (([fC8] : MarcFields).take k).getLast? = some g
              ∧ (g.tag == cC8.tag && fieldMatch g (vocabQuery cC8)) = true) :=
  claim_C7 cC8 [fC8]

theorem runQueryPass_count (tag : String) (q : Query) :
    ∀ r : MarcFields, (runQueryPass tag q r).2
      = r.countP (fun f => (f.tag == tag && fieldMatch f (querySearch q))
          && !(fieldUpdate q f == f)) := by
  intro r
  induction r with
  | nil => rfl
  | cons f fs ih =>
      by_cases hm : (f.tag == tag && fieldMatch f (querySearch q)) = true
      · simp only [runQueryPass, if_pos hm, List.countP_cons, ih]
        by_cases hu : fieldUpdate q f = f
        · have hb : ((f.tag == tag && fieldMatch f (querySearch q))
              && !(fieldUpdate q f == f)) = false := by
            rw [hm, beq_iff_eq.mpr hu]
            rfl
          rw [hb, fieldUpdateCount, if_pos hu]
          simp
        · have hb : ((f.tag == tag && fieldMatch f (querySearch q))
              && !(fieldUpdate q f == f)) = true := by
            rw [hm]
            have : (fieldUpdate q f == f) = false := by
              rw [beq_eq_false_iff_ne]
              exact hu
            rw [this]
            rfl
          rw [hb, fieldUpdateCount, if_neg hu]
          simp
          omega
      · have hm0 : (f.tag == tag && fieldMatch f (querySearch q)) = false := by
          cases hb : (f.tag == tag && fieldMatch f (querySearch q))
          · rfl
          · exact absurd hb hm
        have hb : ((f.tag == tag && fieldMatch f (querySearch q))
            && !(fieldUpdate q f == f)) = false := by
          rw [hm0]
          rfl
        simp only [runQueryPass, if_neg hm, List.countP_cons, ih, hb]
        simp

theorem length_filter_not_add {α : Type} (p : α → Bool) :
    ∀ l : List α, (l.filter (fun x => !(p x))).length + (l.filter p).length
      = l.length := by
  intro l
  induction l with
  | nil => rfl
  | cons x xs ih =>
      by_cases hp : p x = true
      · simp only [List.filter_cons, hp, Bool.not_true, Bool.false_eq_true,
          if_false, if_true, List.length_cons]
        omega
      · have hp0 : p x = false := by
          cases hb : p x
          · rfl
          · exact absurd hb hp
        simp only [List.filter_cons, hp0, Bool.not_false, Bool.false_eq_true,
          if_false, if_true, List.length_cons]
        omega

/-- Claim C8 (corrected): Delete returns exactly the number of removed
matching fields (and removes them all); the exact Replace returns the number
of fields actually modified by the query update, which excludes any field
removed afterwards by deduplication; Add, however, always returns 1 even when
the record ends up unchanged. -/
theorem claim_C8_amended :
    (∀ (src : MarcConcept) (r : MarcFields),
      (deleteRun src r).2 + (deleteRun src r).1.length = r.length
      ∧ (deleteRun src r).2 = r.countP
          (fun f => f.tag == src.tag && fieldMatch f (querySearch (makeQuery src none)))
      ∧ (deleteRun src r).1.countP
          (fun f => f.tag == src.tag && fieldMatch f (querySearch (makeQuery src none)))
          = 0)
    ∧ (∀ (c : MarcConcept) (r : MarcFields), (addRun c r).2 = 1)
    ∧ (∀ (s t : MarcConcept) (r : MarcFields),
        ((ReplaceTask.mk s t false).run r).2
          = r.countP (fun f =>
              (f.tag == s.tag && fieldMatch f (querySearch (makeQuery s (some t))))
              && !(fieldUpdate (makeQuery s (some t)) f == f))) := by
  refine ⟨?_, ?_, ?_⟩
  · intro src r
    refine ⟨?_, ?_, ?_⟩
    · simp only [deleteRun]
      rw [Nat.add_comm]
      exact length_filter_not_add _ r
    · simp only [deleteRun]
      rw [List.countP_eq_length_filter]
    · simp only [deleteRun]
      rw [List.countP_eq_zero]
      intro f hf
      have h2 := (List.mem_filter.mp hf).2
      intro hc
      rw [hc] at h2
      exact Bool.noConfusion h2
  · intro c r
    simp only [addRun]
  · intro s t r
    simp only [ReplaceTask.run, Bool.false_eq_true, if_false]
    rw [Nat.add_zero, runQueryPass_count]

/-- Claim C8 counterexample: adding a concept to a record that already
carries the identical field returns 1, yet the record is unchanged (the new
field is removed again as a duplicate), so the returned value is not the
number of fields actually changed by the run (which is zero here). -/
theorem claim_C8_counterexample :
    addRun cC8 [fC8] = ([fC8], 1) := by
  decide

/-- Claim C9 (corrected): the component query covers code 2 plus exactly the
codes among a, b, x, y, z that the source concept populates (code 2 is always
covered, and a populated code 0 is never covered), whereas the full query
covers all of 2, a, b, x, y, z with each search slot holding the source value
for the code, None meaning the field must lack the subfield. -/
theorem claim_C9_amended :
    ∀ (src : MarcConcept) (target : Option MarcConcept),
      (makeComponentQuery src target).map Prod.fst
          = "2" :: (["a", "b", "x", "y", "z"].filter
              (fun n => (src.sf.lookup n).isSome))
      ∧ (makeQuery src none).map Prod.fst = ["2", "a", "b", "x", "y", "z"]
      ∧ ∀ p ∈ makeQuery src none,
          p.2.search = searchValOfOpt (src.sf.lookup p.1)
          ∧ p.2.replace = none := by
  intro src target
  refine ⟨?_, by simp [makeQuery], ?_⟩
  · simp only [makeComponentQuery, List.map_cons, List.cons.injEq, true_and]
    cases ha : src.sf.lookup "a" <;> cases hb : src.sf.lookup "b" <;>
      cases hx : src.sf.lookup "x" <;> cases hy : src.sf.lookup "y" <;>
      cases hz : src.sf.lookup "z" <;>
      simp [ha, hb, hx, hy, hz]
  · intro p hp
    simp only [makeQuery, List.append_nil, List.mem_cons, List.mem_map] at hp
    rcases hp with h1 | h2
    · subst h1
      exact ⟨rfl, rfl⟩
    · simp only [List.mem_cons, List.not_mem_nil, or_false] at h2
      obtain ⟨n, hn, rfl⟩ := h2
      exact ⟨rfl, rfl⟩

/-- Claim C9 counterexample: a source concept populating subfield 0; the
covered codes of the component query are not exactly the populated codes,
since 0 is populated but not covered. -/
theorem claim_C9_counterexample :
    (srcC9.sf.lookup "0").isSome = true
    ∧ ((makeComponentQuery srcC9 none).map Prod.fst).contains "0" = false := by
  decide

/-- Witness for claim C9: the component and full covered codes at a concrete
source concept populating a, 2 and 0. -/
theorem claim_C9_witness :
    (makeComponentQuery srcC9 none).map Prod.fst
        = "2" :: (["a", "b", "x", "y", "z"].filter
            (fun n => (srcC9.sf.lookup n).isSome))
    ∧ (makeQuery srcC9 none).map Prod.fst = ["2", "a", "b", "x", "y", "z"] :=
  ⟨(claim_C9_amended srcC9 none).1, (claim_C9_amended srcC9 none).2.1⟩

/-- Claim C10 (confirmed): constructing a job whose first source concept has
tag 648 and vocabulary noubomn fails with the RuntimeError before the
authority collaborator is invoked (empty authorize trace) and before any
search expression is derived, for every action, target list and supplied
query. -/
theorem claim_C10 :
    ∀ (action : String) (srcs tgts : List MarcConcept) (cql : Option String)
      (c : MarcConcept) (rest : List MarcConcept),
      srcs = c :: rest → c.tag = "648" → c.sf.lookup "2" = some "noubomn" →
      jobInit action srcs tgts cql
        = ([], Except.error
            "Editing 648 for noubomn is disabled until we get rid of the 650 duplicates") := by
  intro action srcs tgts cql c rest h1 h2 h3
  subst h1
  simp only [jobInit]
  rw [if_pos ⟨h2, h3⟩]

/-- Witness for claim C10 at a concrete 648 noubomn concept. -/
theorem claim_C10_witness :
    jobInit "replace" [c648] [] Option.none
      = ([], Except.error
          "Editing 648 for noubomn is disabled until we get rid of the 650 duplicates") :=
  claim_C10 "replace" [c648] [] Option.none c648 [] rfl rfl rfl

/-- Witness for claim C2: idempotence of the deduplicator at a concrete
record and query. -/
theorem claim_C2_witness :
    removeDuplicates "650" [("2", SearchVal.lit "voc")]
        (removeDuplicates "650" [("2", SearchVal.lit "voc")] [f1C2, f2C2]).1
      = ((removeDuplicates "650" [("2", SearchVal.lit "voc")] [f1C2, f2C2]).1, 0) :=
  (claim_C2_amended "650" [("2", SearchVal.lit "voc")] [f1C2, f2C2]).1

/-- Witness for claim C5 at concrete job parameters. -/
theorem claim_C5_witness :
    jobStart [] [] Option.none "replace" false Interactivity.standard true
        (fun _ => true) (fun _ => []) (SruOutcome.tooMany [recW])
      = ([], ⟨[], []⟩, 0, 0) :=
  claim_C5 [] [] Option.none "replace" false Interactivity.standard true
    (fun _ => true) (fun _ => []) [recW]

/-- Witness for claim C8: the Add count at a concrete concept and the empty
record. -/
theorem claim_C8_witness :
    (addRun cC8 []).2 = 1 :=
  claim_C8_amended.2.1 cC8 []
